import Mathlib

/-!
Verification of the CringeCast podcast-sync engine (`src/podcast.rs`)
against its natural-language specification.

The Rust source is shallowly embedded: strings are manipulated through
their character lists (`String.data`), machine-integer subtleties
(usize underflow, i64 truncating division) are modelled explicitly, and
every fallible operation returns `Except Halt _` where `Halt` records a
`process::exit` or a Rust panic.  External collaborators (chrono
formatting, mime tables, the HTTP responses, the id3 tag writer, the
home directory) are supplied as oracle fields of an `Env` record, so all
definitions stay executable.
-/

set_option autoImplicit false

namespace CringeCast

instance {ε α : Type} [DecidableEq ε] [DecidableEq α] : DecidableEq (Except ε α) :=
  fun a b =>
    match a, b with
    | .ok x, .ok y =>
      if h : x = y then isTrue (by rw [h]) else isFalse (by intro hh; cases hh; exact h rfl)
    | .error x, .error y =>
      if h : x = y then isTrue (by rw [h]) else isFalse (by intro hh; cases hh; exact h rfl)
    | .ok _, .error _ => isFalse (by intro hh; cases hh)
    | .error _, .ok _ => isFalse (by intro hh; cases hh)

/-! ## Character-level string utilities

These mirror the Rust std functions used by `podcast.rs`
(`str::lines`, `str::trim`, `str::split_whitespace`, `str::parse::<i64>`,
the `Display` rendering of integers, `str::replace`).  All recursions are
structural so that every definition reduces inside the kernel. -/

/-- One step of `str::split_whitespace`: accumulate the current token
(reversed) while scanning; whitespace ends a token. -/
def split_ws_loop : List Char → List Char → List (List Char)
  | [], [] => []
  | [], acc => [acc.reverse]
  | c :: rest, acc =>
    if c.isWhitespace then
      if acc.isEmpty then split_ws_loop rest []
      else acc.reverse :: split_ws_loop rest []
    else split_ws_loop rest (c :: acc)

/-- Rust `str::split_whitespace`: whitespace-separated tokens, no empties. -/
def splitWs (cs : List Char) : List (List Char) :=
  split_ws_loop cs []

/-- Split a character list at every newline, `String::split`-style: the
result always has one more element than the number of newlines. -/
def splitNl : List Char → List (List Char)
  | [] => [[]]
  | c :: rest =>
    if c = '\n' then [] :: splitNl rest
    else
      match splitNl rest with
      | [] => [[c]]
      | h :: t => (c :: h) :: t

/-- Drop leading whitespace (left part of `str::trim`). -/
def trimL (cs : List Char) : List Char :=
  cs.dropWhile Char.isWhitespace

/-- Drop trailing whitespace (right part of `str::trim`). -/
def trimR (cs : List Char) : List Char :=
  (cs.reverse.dropWhile Char.isWhitespace).reverse

/-- Rust `str::trim`. -/
def trimChars (cs : List Char) : List Char :=
  trimR (trimL cs)

/-- Numeric value of a digit string (no validity check). -/
def digitsVal (cs : List Char) : Nat :=
  cs.foldl (fun a c => 10 * a + (c.toNat - 48)) 0

/-- Parse a non-empty all-digit string. -/
def digitsToNat? (cs : List Char) : Option Nat :=
  if cs ≠ [] ∧ cs.all Char.isDigit then some (digitsVal cs) else none

/-- Rust `str::parse::<i64>`: optional sign, at least one digit, result
within the i64 range; anything else is an `Err`. -/
def parseI64 (cs : List Char) : Option Int :=
  match cs with
  | [] => none
  | c :: rest =>
    if c = '+' then (digitsToNat? rest).bind fun n => if n < 2 ^ 63 then some (n : Int) else none
    else if c = '-' then
      (digitsToNat? rest).bind fun n => if n ≤ 2 ^ 63 then some (-(n : Int)) else none
    else (digitsToNat? (c :: rest)).bind fun n => if n < 2 ^ 63 then some (n : Int) else none

/-- Fuel-driven digit printer; fuel `n` always suffices for `n`. -/
def nat_to_chars_go : Nat → Nat → List Char → List Char
  | 0, n, acc => Char.ofNat (48 + n % 10) :: acc
  | fuel + 1, n, acc =>
    if n < 10 then Char.ofNat (48 + n) :: acc
    else nat_to_chars_go fuel (n / 10) (Char.ofNat (48 + n % 10) :: acc)

/-- Decimal rendering of a `Nat` (Rust `Display` for unsigned values). -/
def natToChars (n : Nat) : List Char :=
  nat_to_chars_go n n []

/-- Decimal rendering of an `Int` (Rust `Display` for `i64`). -/
def intToChars (i : Int) : List Char :=
  if i < 0 then '-' :: natToChars (-i).toNat else natToChars i.toNat

/-- Rust `str::replace` for a single-character needle. -/
def replaceChar (needle : Char) (repl : List Char) : List Char → List Char
  | [] => []
  | c :: rest =>
    if c = needle then repl ++ replaceChar needle repl rest
    else c :: replaceChar needle repl rest

/-- Text lookup used for id3 tags and raw rss fields: the key maps to an
optional text value (`none` value = the frame/field exists but is not
text); an absent key yields `none` overall. -/
def lookupText (fields : List (String × Option String)) (key : String) : Option String :=
  (fields.lookup key).bind id

/-- Split at the LAST occurrence of `sep`; `none` when `sep` is absent.
Returns (part before the separator, part after it). -/
def splitAtLastChar (sep : Char) (cs : List Char) : Option (List Char × List Char) :=
  let tail := cs.reverse.takeWhile (fun c => c ≠ sep)
  if tail.length = cs.length then none
  else some (cs.take (cs.length - tail.length - 1), tail.reverse)

/-! ## Path manipulation (Rust `std::path::Path`)

Paths are strings with `/` separators; only the file-name component is
ever manipulated by the source. -/

/-- `Path::file_name` (as characters; the full path when no `/`). -/
def pathFileName (path : List Char) : List Char :=
  match splitAtLastChar '/' path with
  | none => path
  | some (_, f) => f

/-- `Path::with_file_name`: replace the final component. -/
def pathWithFileName (path name : List Char) : List Char :=
  match splitAtLastChar '/' path with
  | none => name
  | some (d, _) => d ++ '/' :: name

/-- `Path::extension` on a file name: the part after the last `.`,
except when that dot is the leading character. -/
def fileNameExtension (fname : List Char) : Option (List Char) :=
  match splitAtLastChar '.' fname with
  | none => none
  | some (stem, ext) => if stem = [] then none else some ext

/-- `Path::set_extension` (with a non-empty extension) on a file name:
truncate to the stem, then append `.ext`. -/
def setExtChars (fname ext : List Char) : List Char :=
  match splitAtLastChar '.' fname with
  | none => fname ++ '.' :: ext
  | some (stem, _) => if stem = [] then fname ++ '.' :: ext else stem ++ '.' :: ext

/-- `Path::extension` of a full path. -/
def pathExtension (path : List Char) : Option (List Char) :=
  fileNameExtension (pathFileName path)

/-- `Path::set_extension` of a full path. -/
def pathSetExtension (path ext : List Char) : List Char :=
  pathWithFileName path (setExtChars (pathFileName path) ext)

/-! ## Data model -/

/-- Modelled from the spec: `Episode` lives in `episode.rs`, which is not
part of the provided source.  "Episode: derived view over one RawEpisode —
title, globally-unique guid, media URL, publish timestamp, integer `index`
(0-based position after ascending-by-publish-time sort)".  `fields` holds
the raw per-item key/value map consulted by `get_text_value` (a `none`
value marks a non-text JSON value). -/
structure Episode where
  title : String
  guid : String
  url : String
  published : Int
  index : Nat
  fields : List (String × Option String)
  deriving DecidableEq, Inhabited, Repr

/-- The id3 tag set written by the tag collaborator: frame id to optional
text content (`none` = frame exists but has no text). -/
abbrev Id3Tags : Type := List (String × Option String)

/-- `crate::config::DownloadMode`.  `config.rs` is not in the provided
source; the shape is fixed by its uses in `should_download`:
`start.as_secs() as i64`, `days_passed / interval` (so `interval` is an
i64 day count), `max_days as i64`, `max_episodes as usize`, and
`earliest_date` as an RFC3339 string parsed at check time. -/
inductive DownloadMode where
  | backlog (start : Nat) (interval : Int)
  | standard (maxDays : Option Nat) (maxEpisodes : Option Nat) (earliestDate : Option String)
  deriving DecidableEq

/-- The per-podcast configuration fields consumed by `podcast.rs`. -/
structure Config where
  download_path : String
  name_pattern : String
  id_pattern : String
  mode : DownloadMode

/-- The `Podcast` struct: configured name, the channel-level attribute
map extracted from the converted XML (`none` value = non-string JSON
value), the feed items already turned into `Episode` records (indices
are reassigned by `episodes`), and the configuration. -/
structure Podcast where
  name : String
  channelFields : List (String × Option String)
  items : List Episode
  config : Config

/-- Termination of the process: `std::process::exit(code)` after the
diagnostic `msg`, or a Rust panic. -/
inductive Halt where
  | exit (code : Nat) (msg : String)
  | panic (msg : String)
  deriving DecidableEq

/-- Observable file-system mutations of a sync run. -/
inductive FsEvent where
  | mkdir (path : String)
  | createFile (path : String)
  | writeFile (path : String)
  | renameFile (src : String) (dst : String)
  | ledgerAppend (id : String)
  deriving DecidableEq

/-- The ambient world: every impure input consulted by `podcast.rs`,
supplied as oracles so all definitions stay executable. -/
structure Env where
  now : Int
  homeDir : String
  chronoFormat : Int → String → String
  rfc3339Parse : String → Option Int
  mimeExtensions : String → Option (List String)
  contentType : String → Option String
  chunks : String → Nat
  stagingExists : String → Bool
  ledger : Option String
  id3TagsFor : String → Id3Tags

/-! ## Pattern evaluator (`Podcast::evaluate_pattern`) -/

/-- The placeholder produced when a looked-up value is missing
(`let null = "<value not found>"`). -/
def nullStr : String := "<value not found>"

/-- Modelled from the spec: `NAMESPACE_ALTER` is declared in `utils.rs`,
which is not in the provided source; the spec calls it "a reserved
colon-free placeholder token" substituted for the vendor namespace
prefix.  Its exact spelling is irrelevant to every claim. -/
def NAMESPACE_ALTER : String := "__namespace__"

/-- Modelled from the spec: `crate::APPNAME` is declared outside the
provided source; the spec calls it "a fixed program identifier". -/
def APPNAME : String := "cringecast"

/-- Replace every `:` by `NAMESPACE_ALTER` (`key.replace(":", NAMESPACE_ALTER)`). -/
def replaceColons (cs : List Char) : List Char :=
  replaceChar ':' NAMESPACE_ALTER.data cs

/-- The match over a captured token inside `evaluate_pattern`, arm for
arm in source order.  Guards such as `episode.is_some()` fall through to
the next arm exactly as Rust match guards do, so a context-requiring
token with its context absent reaches the `invalid_tag` arm, which
prints a diagnostic and exits the process. -/
def resolve_token (p : Podcast) (env : Env) (tags : Option Id3Tags) (episode : Option Episode)
    (key : List Char) : Except Halt (List Char) :=
  if "pubdate::".data.isPrefixOf key && episode.isSome then
    let ep := episode.get!
    let format := key.drop "pubdate::".length
    if format = "unix".data then .ok (intToChars ep.published)
    else .ok (env.chronoFormat ep.published (String.mk format)).data
  else if "id3::".data.isPrefixOf key && tags.isSome then
    let tag := String.mk (key.drop "id3::".length)
    .ok ((lookupText tags.get! tag).getD nullStr).data
  else if "rss::episode::".data.isPrefixOf key && episode.isSome then
    let k := String.mk (replaceColons (key.drop "rss::episode::".length))
    .ok ((lookupText episode.get!.fields k).getD nullStr).data
  else if "rss::channel::".data.isPrefixOf key then
    let k := String.mk (replaceColons (key.drop "rss::channel::".length))
    match p.channelFields.lookup k with
    | none => .error (.panic "called Option::unwrap on a None value")
    | some v => .ok ((v.getD nullStr).data)
  else if key = "guid".data && episode.isSome then .ok episode.get!.guid.data
  else if key = "url".data && episode.isSome then .ok episode.get!.url.data
  else if key = "podname".data then .ok p.name.data
  else if key = "appname".data then .ok APPNAME.data
  else if key = "home".data then .ok env.homeDir.data
  else .error (.exit 1 ("invalid tag configured: " ++ String.mk key))

/-- Left-to-right scan replicating `regex r"\x7b([^\x7d]+)\x7d"` with
`captures_iter`: text outside captures is copied verbatim; a `\x7b` with
no later `\x7d` (or with an immediately following `\x7d`, which the
`[^...]+` rejects) is copied verbatim.  `acc = some buf` means a
candidate capture is open with `buf` holding its (reversed) content. -/
def scan_loop (resolve : List Char → Except Halt (List Char)) :
    List Char → Option (List Char) → Except Halt (List Char)
  | [], none => .ok []
  | [], some buf => .ok ('{' :: buf.reverse)
  | c :: rest, none =>
    if c = '{' then scan_loop resolve rest (some [])
    else
      match scan_loop resolve rest none with
      | .error h => .error h
      | .ok r => .ok (c :: r)
  | c :: rest, some buf =>
    if c = '}' then
      if buf.isEmpty then
        match scan_loop resolve rest none with
        | .error h => .error h
        | .ok r => .ok ('{' :: '}' :: r)
      else
        match resolve buf.reverse with
        | .error h => .error h
        | .ok rep =>
          match scan_loop resolve rest none with
          | .error h => .error h
          | .ok r => .ok (rep ++ r)
    else scan_loop resolve rest (some (c :: buf))

/-- `Podcast::evaluate_pattern`. -/
def evaluate_pattern (p : Podcast) (env : Env) (pattern : String) (tags : Option Id3Tags)
    (episode : Option Episode) : Except Halt String :=
  match scan_loop (resolve_token p env tags episode) pattern.data none with
  | .error h => .error h
  | .ok cs => .ok (String.mk cs)

/-- `Podcast::get_id`: evaluate the id pattern, then `replace(" ", "_")`. -/
def get_id (p : Podcast) (env : Env) (episode : Episode) : Except Halt String :=
  match evaluate_pattern p env p.config.id_pattern none (some episode) with
  | .error h => .error h
  | .ok s => .ok (String.mk (replaceChar ' ' ['_'] s.data))

/-! ## Completion ledger (`DownloadedEpisodes`) -/

/-- The in-memory ledger: id to completion time.  A cons-list with
first-match lookup has exactly the `HashMap` membership and
lookup-latest-insert semantics that `podcast.rs` relies on. -/
abbrev Ledger : Type := List (String × Nat)

/-- `HashMap::contains_key`. -/
def containsKey (m : Ledger) (id : String) : Bool :=
  (m : List (String × Nat)).any (fun e => e.1 = id)

/-- Parse one ledger line: fewer than two whitespace tokens is silently
skipped (`if let` falls through); a second token that does not parse as
i64 hits `expect("Timestamp should be a valid i64")`.  The stored time
is `Duration::from_secs(timestamp as u64)`, an i64-to-u64 cast. -/
def parse_line (line : List Char) : Except Halt (Option (String × Nat)) :=
  match splitWs line with
  | id :: tsTok :: _ =>
    match parseI64 tsTok with
    | some t => .ok (some (String.mk id, (t.emod (2 ^ 64)).toNat))
    | none => .error (.panic "Timestamp should be a valid i64")
  | _ => .ok none

/-- Fold the parsed lines into the map, first line to last. -/
def load_fold (m : Ledger) : List (List Char) → Except Halt Ledger
  | [] => .ok m
  | l :: rest =>
    match parse_line l with
    | .error h => .error h
    | .ok none => load_fold m rest
    | .ok (some (id, t)) => load_fold ((id, t) :: (m : List (String × Nat))) rest

/-- `DownloadedEpisodes::load`, applied to the content of the
`.downloaded` file (`none` = the file does not exist, the
`ErrorKind::NotFound` branch returning the default). -/
def DownloadedEpisodes.load (content : Option String) : Except Halt Ledger :=
  match content with
  | none => .ok ([] : List (String × Nat))
  | some s => load_fold ([] : List (String × Nat)) (splitNl (trimChars s.data))

/-- The line written by `DownloadedEpisodes::append`
(`writeln!(file, "{} {} \"{}\"", id, current_unix(), &episode.title)`),
newline included. -/
def ledger_line (id : String) (now : Int) (title : String) : List Char :=
  id.data ++ ' ' :: intToChars now ++ ' ' :: '"' :: title.data ++ ['"', '\n']

/-- `DownloadedEpisodes::append`: open with append+create and write one
line; modelled as a function from old file content (`none` = absent) to
new content. -/
def DownloadedEpisodes.append (content : Option String) (id : String) (now : Int)
    (title : String) : String :=
  String.mk ((content.getD "").data ++ ledger_line id now title)

/-! ## Selection policy (`Podcast::should_download`) -/

/-- The `max_days` closure: `max_days.is_some_and(|d| (now - published) > d as i64 * 86400)`. -/
def max_days_exceeded (env : Env) (episode : Episode) (maxDays : Option Nat) : Bool :=
  match maxDays with
  | none => false
  | some d => decide ((env.now - episode.published) > (d : Int) * 86400)

/-- The `max_episodes` closure:
`(latest_episode - max_episodes as usize) > episode.index` with usize
subtraction, which panics (debug) when `max_episodes > latest_episode`. -/
def max_episodes_exceeded (maxEpisodes : Option Nat) (latest_episode : Nat) (index : Nat) :
    Except Halt Bool :=
  match maxEpisodes with
  | none => .ok false
  | some m =>
    if m ≤ latest_episode then .ok (decide (latest_episode - m > index))
    else .error (.panic "attempt to subtract with overflow")

/-- The `earliest_date` closure: parse the RFC3339 string (unwrap panics
on a malformed date) and compare timestamps. -/
def episode_too_old (env : Env) (episode : Episode) (earliestDate : Option String) :
    Except Halt Bool :=
  match earliestDate with
  | none => .ok false
  | some d =>
    match env.rfc3339Parse d with
    | none => .error (.panic "called Result::unwrap on an Err value")
    | some ts => .ok (decide (ts > episode.published))

/-- `Podcast::should_download`.  The ledger check runs first; the
Standard-mode closures are evaluated in the short-circuit order
`!max_days_exceeded() && !max_episodes_exceeded() && !episode_too_old()`.
Backlog division is i64 division: truncation toward zero, with a panic
on a zero interval. -/
def should_download (p : Podcast) (env : Env) (episode : Episode) (latest_episode : Nat)
    (downloaded : Ledger) : Except Halt Bool :=
  match get_id p env episode with
  | .error h => .error h
  | .ok id =>
    if containsKey downloaded id then .ok false
    else
      match p.config.mode with
      | .backlog start interval =>
        let days_passed := Int.tdiv (env.now - (start : Int)) 86400
        if interval = 0 then .error (.panic "attempt to divide by zero")
        else .ok (decide (Int.tdiv days_passed interval ≥ (episode.index : Int)))
      | .standard maxDays maxEpisodes earliestDate =>
        if max_days_exceeded env episode maxDays then .ok false
        else
          match max_episodes_exceeded maxEpisodes latest_episode episode.index with
          | .error h => .error h
          | .ok exceeded =>
            if exceeded then .ok false
            else
              match episode_too_old env episode earliestDate with
              | .error h => .error h
              | .ok tooOld => .ok (!tooOld)

/-! ## Episode list construction (`Podcast::episodes`) -/

/-- Stable insertion step for the by-publish-time sort: an element is
placed after every element with a key less than or equal to its own. -/
def insertByPub (e : Episode) : List Episode → List Episode
  | [] => [e]
  | x :: xs => if x.published ≤ e.published then x :: insertByPub e xs else e :: x :: xs

/-- Stable sort by `published` (`vec.sort_by_key(|episode| episode.published)`). -/
def sortByPublished (l : List Episode) : List Episode :=
  l.foldl (fun acc e => insertByPub e acc) []

/-- `Podcast::episodes`: build the episode list, sort it ascending by
publish time and assign dense indices `0..N-1` in that order. -/
def episodes (p : Podcast) : List Episode :=
  ((sortByPublished p.items).enum).map (fun ie => { ie.2 with index := ie.1 })

/-- Stable insertion step for the by-index sort. -/
def insertByIdx (e : Episode) : List Episode → List Episode
  | [] => [e]
  | x :: xs => if x.index ≤ e.index then x :: insertByIdx e xs else e :: x :: xs

/-- `episodes.sort_by_key(|ep| ep.index)`. -/
def sortByIndex (l : List Episode) : List Episode :=
  l.foldl (fun acc e => insertByIdx e acc) []

/-- The `filter(|episode| self.should_download(..))` pass, evaluated in
list order, propagating the first halt. -/
def filterShould (p : Podcast) (env : Env) (latest : Nat) (downloaded : Ledger) :
    List Episode → Except Halt (List Episode)
  | [] => .ok []
  | e :: rest =>
    match should_download p env e latest downloaded with
    | .error h => .error h
    | .ok b =>
      match filterShould p env latest downloaded rest with
      | .error h => .error h
      | .ok tail => .ok (if b then e :: tail else tail)

/-! ## Download engine and sync pipeline -/

/-- `Podcast::download_folder`: evaluate the directory pattern (no tag
and no episode context), then `create_dir_all` it. -/
def download_folder (p : Podcast) (env : Env) : List FsEvent × Except Halt String :=
  match evaluate_pattern p env p.config.download_path none none with
  | .error h => ([], .error h)
  | .ok evaluated => ([.mkdir evaluated], .ok evaluated)

/-- `Podcast::pending_episodes`: resolve the download folder (creating
it), build the indexed episode list, load the ledger, filter by
`should_download` (passing `episodes.len()` as `latest_episode`), then
order the queue: ascending by index in Backlog mode, descending in
Standard mode. -/
def pending_episodes (p : Podcast) (env : Env) : List FsEvent × Except Halt (List Episode) :=
  match download_folder p env with
  | (evs, .error h) => (evs, .error h)
  | (evs, .ok _folder) =>
    let eps := episodes p
    let episode_qty := eps.length
    match DownloadedEpisodes.load env.ledger with
    | .error h => (evs, .error h)
    | .ok downloaded =>
      match filterShould p env episode_qty downloaded eps with
      | .error h => (evs, .error h)
      | .ok kept =>
        match p.config.mode with
        | .backlog _ _ => (evs, .ok (sortByIndex kept))
        | .standard _ _ _ => (evs, .ok (sortByIndex kept).reverse)

/-- The extension-inference block of `Podcast::download_episode`:
`mime_guess::get_mime_extensions_str(content_type).unwrap()` (panics for
an unknown content type), then prefer `mp3`, else
`extensions.first().expect("extension not found.")`. -/
def infer_extension (env : Env) (contentTypeHeader : Option String) : Except Halt String :=
  let content_type := contentTypeHeader.getD "application/octet-stream"
  match env.mimeExtensions content_type with
  | none => .error (.panic "called Option::unwrap on a None value")
  | some extensions =>
    if extensions.contains "mp3" then .ok "mp3"
    else
      match extensions.head? with
      | some e => .ok e
      | none => .error (.panic "extension not found.")

/-- `Podcast::download_episode`: re-resolve the download folder, open or
create the `.partial` staging file, infer the extension from the
response content type, stream the body chunks to the file, and rename
the staging file to carry the inferred extension. -/
def download_episode (p : Podcast) (env : Env) (episode : Episode) :
    List FsEvent × Except Halt String :=
  match download_folder p env with
  | (evs, .error h) => (evs, .error h)
  | (evs, .ok folder) =>
    let staging_path := folder ++ "/" ++ episode.guid ++ ".partial"
    let fileEvents :=
      if env.stagingExists staging_path then [] else [FsEvent.createFile staging_path]
    match infer_extension env (env.contentType episode.url) with
    | .error h => (evs ++ fileEvents, .error h)
    | .ok ext =>
      let writes := List.replicate (env.chunks episode.url) (FsEvent.writeFile staging_path)
      let path := String.mk (pathSetExtension staging_path.data ext.data)
      (evs ++ fileEvents ++ writes ++ [.renameFile staging_path path], .ok path)

/-- `Podcast::rename_file`: evaluate the filename pattern, then build
the new path with `with_file_name(result)` followed by
`set_extension(old extension)` when the file has one, and rename. -/
def rename_file (p : Podcast) (env : Env) (file : String) (tags : Option Id3Tags)
    (episode : Episode) : List FsEvent × Except Halt String :=
  match evaluate_pattern p env p.config.name_pattern tags (some episode) with
  | .error h => ([], .error h)
  | .ok result =>
    let new_name :=
      match pathExtension file.data with
      | some extension =>
        String.mk (pathSetExtension (pathWithFileName file.data result.data) extension)
      | none => String.mk (pathWithFileName file.data result.data)
    ([.renameFile file new_name], .ok new_name)

/-- `Podcast::normalize_episode`: unwrap the extension, write id3 tags
when it is `mp3` (external collaborator, oracle `env.id3TagsFor`), and
rename via the filename pattern. -/
def normalize_episode (p : Podcast) (env : Env) (episode : Episode) (path : String) :
    List FsEvent × Except Halt String :=
  match pathExtension path.data with
  | none => ([], .error (.panic "called Option::unwrap on a None value"))
  | some extension =>
    let tags :=
      if extension = "mp3".data then some (env.id3TagsFor episode.guid) else none
    rename_file p env path tags episode

/-- `Podcast::mark_downloaded`: re-resolve the download folder, compute
the id and append the ledger line. -/
def mark_downloaded (p : Podcast) (env : Env) (episode : Episode) :
    List FsEvent × Except Halt Unit :=
  match download_folder p env with
  | (evs, .error h) => (evs, .error h)
  | (evs, .ok _path) =>
    match get_id p env episode with
    | .error h => (evs, .error h)
    | .ok id => (evs ++ [FsEvent.ledgerAppend id], .ok ())

/-- One iteration of the `sync` loop body: download, normalize, record. -/
def sync_episode (p : Podcast) (env : Env) (episode : Episode) :
    List FsEvent × Except Halt String :=
  match download_episode p env episode with
  | (evs, .error h) => (evs, .error h)
  | (evs, .ok path) =>
    match normalize_episode p env episode path with
    | (evs2, .error h) => (evs ++ evs2, .error h)
    | (evs2, .ok newPath) =>
      match mark_downloaded p env episode with
      | (evs3, .error h) => (evs ++ evs2 ++ evs3, .error h)
      | (evs3, .ok _) => (evs ++ evs2 ++ evs3, .ok newPath)

/-- The `for (index, episode) in episodes` loop of `Podcast::sync`. -/
def sync_loop (p : Podcast) (env : Env) : List Episode → List FsEvent × Except Halt (List String)
  | [] => ([], .ok [])
  | e :: rest =>
    match sync_episode p env e with
    | (evs, .error h) => (evs, .error h)
    | (evs, .ok path) =>
      match sync_loop p env rest with
      | (evs2, .error h) => (evs ++ evs2, .error h)
      | (evs2, .ok paths) => (evs ++ evs2, .ok (path :: paths))

/-- `Podcast::sync`: compute the pending queue, then process it in
order, collecting the finalized paths. -/
def sync (p : Podcast) (env : Env) : List FsEvent × Except Halt (List String) :=
  match pending_episodes p env with
  | (evs, .error h) => (evs, .error h)
  | (evs, .ok eps) =>
    match sync_loop p env eps with
    | (evs2, r) => (evs ++ evs2, r)

/-! ## Spec-side renderings

These two definitions follow the words of the specification (not the
source); they exist to be compared against the source-derived
definitions above. -/

/-- Spec-side: "`max_episodes` absent OR
`(latest_index − max_episodes) ≤ episode.index`, where `latest_index` is
the highest index across all episodes of the feed". -/
def specPassesMaxEpisodesBound (maxEpisodes : Option Nat) (latestIndex index : Nat) : Bool :=
  match maxEpisodes with
  | none => true
  | some m => decide ((latestIndex : Int) - (m : Int) ≤ (index : Int))

/-- The amended Standard-mode bound: the code subtracts `max_episodes`
from the episode COUNT (`episodes.len()`), not from the highest index. -/
def amendedPassesMaxEpisodesBound (maxEpisodes : Option Nat) (episodeCount index : Nat) :
    Bool :=
  match maxEpisodes with
  | none => true
  | some m => decide (episodeCount - m ≤ index)

/-- Spec-side: "let `days_passed = floor((now − start) / 86400)`,
`unlocked_index = floor(days_passed / interval_days)`. Episode eligible
iff `unlocked_index ≥ episode.index`" (floor division throughout). -/
def specBacklogEligible (now : Int) (start : Nat) (interval : Int) (index : Nat) : Bool :=
  decide (Int.fdiv (Int.fdiv (now - (start : Int)) 86400) interval ≥ (index : Int))

/-! ## Ledger entries as append histories (for the round-trip claim) -/

/-- One `mark_downloaded` append: the computed id, the completion time
`current_unix()`, the episode title. -/
structure LedgerEntry where
  id : String
  ts : Int
  title : String
  deriving DecidableEq

/-- Well-formedness of an appended entry: a non-empty whitespace-free id
(`get_id` replaces spaces by underscores), a completion time printable
and re-parseable as i64, and a newline-free title. -/
def wfEntry (e : LedgerEntry) : Bool :=
  !e.id.data.isEmpty && e.id.data.all (fun c => !c.isWhitespace) &&
    decide (0 ≤ e.ts) && decide (e.ts < 2 ^ 63) && e.title.data.all (fun c => c ≠ '\n')

/-- The `.downloaded` content produced by a history of appends starting
from no file. -/
def ledgerContentOf (E : List LedgerEntry) : Option String :=
  E.foldl (fun c e => some (DownloadedEpisodes.append c e.id e.ts e.title)) none

/-- Recognizer for ledger-append events in a sync trace. -/
def isLedgerAppend : FsEvent → Bool
  | .ledgerAppend _ => true
  | _ => false

/-- The id a ledger line contributes: its first whitespace token, when a
second token exists and parses as i64. -/
def lineId? (l : List Char) : Option String :=
  match splitWs l with
  | i :: ts :: _ => if (parseI64 ts).isSome then some (String.mk i) else none
  | _ => none

/-- A line on which `DownloadedEpisodes::load` does not panic: fewer
than two whitespace tokens, or an i64-parseable second token. -/
def lineSafe (l : List Char) : Bool :=
  match splitWs l with
  | _ :: ts :: _ => (parseI64 ts).isSome
  | _ => true

/-- The ids of the well-formed lines of a ledger file content. -/
def lineIds (cs : List Char) : List String :=
  (splitNl (trimChars cs)).filterMap lineId?

/-- The ledger line of an entry without its trailing newline. -/
def entryBody (e : LedgerEntry) : List Char :=
  e.id.data ++ ' ' :: intToChars e.ts ++ ' ' :: '"' :: e.title.data ++ ['"']

/-! ## Concrete fixtures used by the counterexamples and witnesses -/

/-- A do-nothing world: every oracle inert, no ledger file. -/
def env0 : Env :=
  { now := 0
    homeDir := "/home/user"
    chronoFormat := fun _ _ => ""
    rfc3339Parse := fun _ => none
    mimeExtensions := fun _ => none
    contentType := fun _ => none
    chunks := fun _ => 0
    stagingExists := fun _ => false
    ledger := none
    id3TagsFor := fun _ => [] }

/-- A world whose HTTP responses declare `audio/mpeg` mapping to `mp3`,
delivering one body chunk. -/
def envDl : Env :=
  { env0 with
    mimeExtensions := fun ct => if ct = "audio/mpeg" then some ["mp3"] else none
    contentType := fun _ => some "audio/mpeg"
    chunks := fun _ => 1 }

/-- Feed item number `i`: guid `g<i>`, published at time `i`. -/
def mkItem (i : Nat) : Episode :=
  { title := "t", guid := "g" ++ String.mk (natToChars i), url := "u", published := (i : Int)
    index := 0, fields := [] }

/-- A 21-item feed (highest assigned index 20) in Standard mode with
`max_episodes = 5`. -/
def p1 : Podcast :=
  { name := "pod", channelFields := [], items := (List.range 21).map mkItem
    config :=
      { download_path := "casts", name_pattern := "{guid}", id_pattern := "{guid}"
        mode := .standard none (some 5) none } }

/-- The episode that `episodes p1` carries at index 15. -/
def ep15 : Episode :=
  { title := "t", guid := "g15", url := "u", published := 15, index := 15, fields := [] }

/-- A generic single episode used by several fixtures. -/
def ep0 : Episode :=
  { title := "t", guid := "e0", url := "u", published := 0, index := 0, fields := [] }

/-- A Backlog-mode podcast whose start lies one day in the future
relative to `now = 0`, with a 7-day interval. -/
def p5 : Podcast :=
  { name := "pod", channelFields := [], items := [ep0]
    config :=
      { download_path := "casts", name_pattern := "{guid}", id_pattern := "{guid}"
        mode := .backlog 86400 7 } }

/-- A podcast whose filename pattern holds the unrecognized token
`bogus`, with one pending episode. -/
def p3 : Podcast :=
  { name := "pod", channelFields := [], items := [ep0]
    config :=
      { download_path := "casts", name_pattern := "{bogus}", id_pattern := "{guid}"
        mode := .standard none none none } }

/-- An 8-item feed in Standard mode with `max_episodes = 2`. -/
def p7 : Podcast :=
  { name := "pod", channelFields := [], items := (List.range 8).map mkItem
    config :=
      { download_path := "casts", name_pattern := "{guid}", id_pattern := "{guid}"
        mode := .standard none (some 2) none } }

/-- The world for the end-to-end run: items `g0`..`g4` already ledgered. -/
def env7 : Env :=
  { envDl with
    ledger := some "g0 1 \"t\"\ng1 1 \"t\"\ng2 1 \"t\"\ng3 1 \"t\"\ng4 1 \"t\"\n" }

/-- A podcast whose filename pattern evaluates to the dot-containing
literal `ep.1`. -/
def p8 : Podcast :=
  { name := "pod", channelFields := [], items := [ep0]
    config :=
      { download_path := "casts", name_pattern := "ep.1", id_pattern := "{guid}"
        mode := .standard none none none } }

/-- A 2-item feed in Standard mode with `max_episodes = 30`, exceeding
the episode count. -/
def p9 : Podcast :=
  { name := "pod", channelFields := [], items := (List.range 2).map mkItem
    config :=
      { download_path := "casts", name_pattern := "{guid}", id_pattern := "{guid}"
        mode := .standard none (some 30) none } }

/-- A duplicated append history for the round-trip witness. -/
def entry0 : LedgerEntry := { id := "e0", ts := 100, title := "t" }

/-- The episode that `episodes p1` carries at index 16. -/
def ep16 : Episode :=
  { title := "t", guid := "g16", url := "u", published := 16, index := 16, fields := [] }

/-- A podcast whose download-directory pattern holds the unrecognized
token `bogus`. -/
def p3b : Podcast :=
  { name := "pod", channelFields := [], items := [ep0]
    config :=
      { download_path := "{bogus}", name_pattern := "{guid}", id_pattern := "{guid}"
        mode := .standard none none none } }

/-- A podcast whose filename pattern evaluates to the dot-free literal
`epname`. -/
def p8b : Podcast :=
  { name := "pod", channelFields := [], items := [ep0]
    config :=
      { download_path := "casts", name_pattern := "epname", id_pattern := "{guid}"
        mode := .standard none none none } }

/-- A world whose mime table maps `broken/mime` to an empty extension
list. -/
def env10 : Env :=
  { env0 with mimeExtensions := fun ct => if ct = "broken/mime" then some [] else none }

/-- An episode with index 3 for the backlog-pacing witness. -/
def ep3 : Episode :=
  { title := "t", guid := "e3", url := "u", published := 3, index := 3, fields := [] }

/-- The world at exactly `start + 20 days` for `p5` (`start = 86400`). -/
def envT20 : Env := { env0 with now := 1814400 }

/-- The world at exactly `start + 22 days` for `p5` (`start = 86400`). -/
def envT22 : Env := { env0 with now := 1987200 }

end CringeCast

namespace CringeCast

/-! # Claim theorems -/

/-- C7: end-to-end Standard-mode run with `max_episodes = 2` over a feed
whose un-ledgered episodes have indices 5, 6 and 7 (indices 0–4 are in
the ledger): exactly the episodes with indices 7 and 6 are downloaded,
newest first, appending exactly two ledger lines in that order. -/
theorem c7_end_to_end :
    ((episodes p7).map (fun e => e.index)) = List.range 8 ∧
      DownloadedEpisodes.load env7.ledger =
        .ok [("g4", 1), ("g3", 1), ("g2", 1), ("g1", 1), ("g0", 1)] ∧
      (sync p7 env7).2 = .ok ["casts/g7.mp3", "casts/g6.mp3"] ∧
      ((sync p7 env7).1.filter isLedgerAppend) =
        [FsEvent.ledgerAppend "g7", FsEvent.ledgerAppend "g6"] := by
  decide

/-- C1 counterexample: in the 21-episode feed `p1` (dense indices 0–20,
so the highest index is 20) with `max_episodes = 5` and an empty ledger,
the episode at index 15 satisfies the spec formula
`(latest_index − max_episodes) ≤ index` (`specPassesMaxEpisodesBound`),
yet `should_download` rejects it: the code subtracts from the episode
COUNT (21), not from the highest index (20). -/
theorem c1_counterexample :
    ((episodes p1).map (fun e => e.index)) = List.range 21 ∧
      ep15 ∈ episodes p1 ∧
      specPassesMaxEpisodesBound (some 5) 20 15 = true ∧
      should_download p1 env0 ep15 (episodes p1).length [] = .ok false := by
  decide

/-- C2 counterexample: the token `guid` requires an episode context;
evaluated without one it does NOT resolve to the placeholder
`<value not found>` — it halts the run with `process::exit(1)`. -/
theorem c2_counterexample :
    evaluate_pattern p5 env0 "{guid}" none none =
        .error (.exit 1 "invalid tag configured: guid") ∧
      evaluate_pattern p5 env0 "{guid}" none none ≠ .ok nullStr := by
  decide

/-- C3 counterexample: with the unknown token `bogus` in the FILENAME
pattern, the run does halt, but only after the download directory was
created, the staging file was created and written, and the staged file
was renamed — file-system side effects precede the halt. -/
theorem c3_counterexample :
    (sync p3 envDl).2 = .error (.exit 1 "invalid tag configured: bogus") ∧
      FsEvent.mkdir "casts" ∈ (sync p3 envDl).1 ∧
      FsEvent.createFile "casts/e0.partial" ∈ (sync p3 envDl).1 ∧
      FsEvent.renameFile "casts/e0.partial" "casts/e0.mp3" ∈ (sync p3 envDl).1 := by
  decide

/-- C4 counterexample: a ledger whose trailing line is `bad notanumber`
(second token not a valid i64) makes loading panic via
`expect("Timestamp should be a valid i64")` instead of returning the set
containing `goodid` from the well-formed first line. -/
theorem c4_counterexample :
    parse_line "goodid 100".data = .ok (some ("goodid", 100)) ∧
      DownloadedEpisodes.load (some "goodid 100\nbad notanumber") =
        .error (.panic "Timestamp should be a valid i64") := by
  decide

/-- C5 counterexample: at `now = 0` with `start` one day in the future
and a 7-day interval, the spec's floor formula marks episode 0
ineligible (floor of -1 over 7 is -1, below 0), but the code's i64
division truncates toward zero (-1 over 7 gives 0), so `should_download`
accepts it. -/
theorem c5_counterexample :
    should_download p5 env0 ep0 1 [] = .ok true ∧
      specBacklogEligible 0 86400 7 0 = false := by
  decide

/-- C8 counterexample: the filename pattern evaluates to the
dot-containing `ep.1`; `set_extension` then replaces everything after
the last dot, producing `casts/ep.mp3` rather than preserving the
evaluated name as `casts/ep.1.mp3`. -/
theorem c8_counterexample :
    evaluate_pattern p8 env0 p8.config.name_pattern none (some ep0) = .ok "ep.1" ∧
      (rename_file p8 env0 "casts/g.mp3" none ep0).2 = .ok "casts/ep.mp3" ∧
      ("casts/ep.mp3" : String) ≠ "casts/ep.1.mp3" := by
  decide

/-- C3 (amended): an unknown pattern token halts the whole run; only
when it sits in the download-directory pattern does the halt precede
every file-system side effect, because that pattern is evaluated before
`create_dir_all` and before anything else in `sync`. -/
theorem c3_amended (p : Podcast) (env : Env) (h : Halt)
    (hfail : evaluate_pattern p env p.config.download_path none none = .error h) :
    sync p env = ([], .error h) := by
  simp [sync, pending_episodes, download_folder, hfail]

/-- C3 witness: a concrete podcast whose download-directory pattern
holds the unknown token `bogus` halts with an empty event trace. -/
theorem c3_amended_witness :
    evaluate_pattern p3b env0 p3b.config.download_path none none =
        .error (.exit 1 "invalid tag configured: bogus") ∧
      sync p3b env0 = ([], .error (.exit 1 "invalid tag configured: bogus")) :=
  ⟨by decide, c3_amended p3b env0 (.exit 1 "invalid tag configured: bogus") (by decide)⟩

/-- C9: the Standard-mode `max_episodes` check is total only when
`max_episodes ≤ episodes.len()`: the usize subtraction
`latest_episode - max_episodes` underflows (panics) whenever
`max_episodes` exceeds the feed's episode count — the parameter
`pending_episodes` passes — rather than treating every episode as
eligible. -/
theorem c9_underflow :
    (∀ (latest index m : Nat), latest < m →
      max_episodes_exceeded (some m) latest index =
        .error (.panic "attempt to subtract with overflow")) ∧
    (∀ (latest index m : Nat), m ≤ latest →
      max_episodes_exceeded (some m) latest index = .ok (decide (latest - m > index))) ∧
    (∀ (p : Podcast) (env : Env) (ep : Episode) (dl : Ledger) (id : String)
        (maxDays : Option Nat) (m : Nat) (earliest : Option String),
      p.config.mode = .standard maxDays (some m) earliest →
      get_id p env ep = .ok id → containsKey dl id = false →
      max_days_exceeded env ep maxDays = false →
      (episodes p).length < m →
      should_download p env ep (episodes p).length dl =
        .error (.panic "attempt to subtract with overflow")) := by
  refine ⟨?_, ?_, ?_⟩
  · intro latest index m hlt
    simp [max_episodes_exceeded, show ¬(m ≤ latest) from by omega]
  · intro latest index m hle
    simp [max_episodes_exceeded, hle]
  · intro p env ep dl id maxDays m earliest hmode hid hdl hday hlt
    simp [should_download, hid, hdl, hmode, hday, max_episodes_exceeded,
      show ¬(m ≤ (episodes p).length) from by omega]

/-- C9 witness: a 2-episode feed with `max_episodes = 30` panics with a
subtraction overflow in `should_download`. -/
theorem c9_underflow_witness :
    p9.config.mode = DownloadMode.standard none (some 30) none ∧
      get_id p9 env0 ep0 = .ok "e0" ∧ containsKey [] "e0" = false ∧
      max_days_exceeded env0 ep0 none = false ∧ (episodes p9).length < 30 ∧
      should_download p9 env0 ep0 (episodes p9).length [] =
        .error (.panic "attempt to subtract with overflow") :=
  ⟨by decide, by decide, by decide, by decide, by decide,
    c9_underflow.2.2 p9 env0 ep0 [] "e0" none 30 none (by decide) (by decide) (by decide)
      (by decide) (by decide)⟩

/-- C10: extension inference is partial — an unknown content type
(after defaulting a missing or unreadable header to
`application/octet-stream`) or an empty extension list aborts through
`unwrap`/`expect`; a non-empty list yields `mp3` when present, else the
first candidate. -/
theorem c10_extension_inference :
    (∀ (env : Env) (header : Option String),
      env.mimeExtensions (header.getD "application/octet-stream") = none →
      infer_extension env header = .error (.panic "called Option::unwrap on a None value")) ∧
    (∀ (env : Env) (header : Option String),
      env.mimeExtensions (header.getD "application/octet-stream") = some [] →
      infer_extension env header = .error (.panic "extension not found.")) ∧
    (∀ (env : Env) (header : Option String) (e : String) (exts : List String),
      env.mimeExtensions (header.getD "application/octet-stream") = some (e :: exts) →
      infer_extension env header =
        .ok (if (e :: exts).contains "mp3" then "mp3" else e)) := by
  refine ⟨?_, ?_, ?_⟩
  · intro env header hmiss
    simp [infer_extension, hmiss]
  · intro env header hempty
    simp [infer_extension, hempty]
  · intro env header e exts hsome
    simp only [infer_extension, hsome]
    split <;> simp_all

/-- C10 witness: the three inference outcomes at concrete mime tables. -/
theorem c10_extension_inference_witness :
    (envDl.mimeExtensions ((some "text/odd").getD "application/octet-stream") = none ∧
      infer_extension envDl (some "text/odd") =
        .error (.panic "called Option::unwrap on a None value")) ∧
    (env10.mimeExtensions ((some "broken/mime").getD "application/octet-stream") = some [] ∧
      infer_extension env10 (some "broken/mime") = .error (.panic "extension not found.")) ∧
    (envDl.mimeExtensions ((some "audio/mpeg").getD "application/octet-stream") =
        some ("mp3" :: []) ∧
      infer_extension envDl (some "audio/mpeg") =
        .ok (if ("mp3" :: []).contains "mp3" then "mp3" else "mp3")) :=
  ⟨⟨by decide, c10_extension_inference.1 envDl (some "text/odd") (by decide)⟩,
   ⟨by decide, c10_extension_inference.2.1 env10 (some "broken/mime") (by decide)⟩,
   ⟨by decide, c10_extension_inference.2.2 envDl (some "audio/mpeg") "mp3" [] (by decide)⟩⟩

/-- C1 (amended): in Standard mode an un-ledgered episode passes the
`max_episodes` bound iff `max_episodes` is absent or
`episode_count − max_episodes ≤ episode.index`, where `episode_count` is
the number of episodes of the feed (the highest index plus one); with
`max_episodes = 5` over 21 episodes, index 15 is excluded and index 16
included. -/
theorem c1_amended (p : Podcast) (env : Env) (ep : Episode) (dl : Ledger) (id : String)
    (maxDays : Option Nat) (maxEpisodes : Option Nat) (earliest : Option String)
    (hmode : p.config.mode = .standard maxDays maxEpisodes earliest)
    (hid : get_id p env ep = .ok id) (hdl : containsKey dl id = false)
    (hday : max_days_exceeded env ep maxDays = false)
    (hold : episode_too_old env ep earliest = .ok false)
    (hm : ∀ m, maxEpisodes = some m → m ≤ (episodes p).length) :
    should_download p env ep (episodes p).length dl =
      .ok (amendedPassesMaxEpisodesBound maxEpisodes (episodes p).length ep.index) := by
  cases maxEpisodes with
  | none =>
    simp [should_download, hid, hdl, hmode, hday, hold, max_episodes_exceeded,
      amendedPassesMaxEpisodesBound]
  | some m =>
    have hle := hm m rfl
    simp only [should_download, hid, hdl, hmode, hday, max_episodes_exceeded, hle,
      amendedPassesMaxEpisodesBound, Bool.false_eq_true, if_false, if_true]
    split <;> simp_all
    all_goals omega

/-- A newline-free list is a single line. -/
theorem splitNl_no_newline (l : List Char) (h : ∀ x ∈ l, x ≠ '\n') : splitNl l = [l] := by
  induction l with
  | nil => rfl
  | cons c rest ih =>
    have hc : c ≠ '\n' := h c (by simp)
    have ih' := ih (fun x hx => h x (by simp [hx]))
    simp [splitNl, hc, ih']

/-- `splitNl` never returns the empty list. -/
theorem splitNl_ne_nil (l : List Char) : splitNl l ≠ [] := by
  cases l with
  | nil => simp [splitNl]
  | cons c rest =>
    simp only [splitNl]
    by_cases hc : c = '\n'
    · simp [hc]
    · simp only [hc, if_false]
      cases hs : splitNl rest <;> simp

/-- Splitting after a newline-free first line. -/
theorem splitNl_append_cons (l rest : List Char) (h : ∀ x ∈ l, x ≠ '\n') :
    splitNl (l ++ '\n' :: rest) = l :: splitNl rest := by
  induction l with
  | nil => simp [splitNl]
  | cons c cs ih =>
    have hc : c ≠ '\n' := h c (by simp)
    have ih' := ih (fun x hx => h x (by simp [hx]))
    simp [splitNl, hc, ih']

/-- `dropWhile` that stops inside the first part of an append. -/
theorem dropWhile_append_left {p : Char → Bool} (xs ys : List Char)
    (h : xs.dropWhile p ≠ []) :
    (xs ++ ys).dropWhile p = xs.dropWhile p ++ ys := by
  induction xs with
  | nil => simp at h
  | cons c cs ih =>
    by_cases hc : p c
    · have h' : cs.dropWhile p ≠ [] := by simpa [List.dropWhile_cons, hc] using h
      simp [List.dropWhile_cons, hc, ih h']
    · simp [List.dropWhile_cons, hc]

/-- Right trim passes over a prefix when the suffix keeps content. -/
theorem trimR_append (a b : List Char) (h : trimR b ≠ []) : trimR (a ++ b) = a ++ trimR b := by
  unfold trimR at *
  have hb : b.reverse.dropWhile Char.isWhitespace ≠ [] := by
    intro hx
    rw [hx] at h
    simp at h
  simp [List.reverse_append, dropWhile_append_left _ _ hb]

/-- Right trim keeps a list ending in a non-whitespace character. -/
theorem trimR_append_singleton (xs : List Char) (c : Char) (h : c.isWhitespace = false) :
    trimR (xs ++ [c]) = xs ++ [c] := by
  unfold trimR
  simp [List.reverse_append, List.dropWhile_cons, h]

/-- Right trim absorbs a trailing newline. -/
theorem trimR_append_newline (xs : List Char) : trimR (xs ++ ['\n']) = trimR xs := by
  unfold trimR
  simp [List.reverse_append, List.dropWhile_cons]

/-- Left trim keeps a list starting with a non-whitespace character. -/
theorem trimL_cons_of_not_ws (c : Char) (cs : List Char) (h : c.isWhitespace = false) :
    trimL (c :: cs) = c :: cs := by
  simp [trimL, List.dropWhile_cons, h]

/-- The character of a decimal digit is a digit character. -/
theorem digitChar_isDigit (d : Nat) (h : d < 10) : (Char.ofNat (48 + d)).isDigit = true := by
  interval_cases d <;> decide

/-- Code point of a decimal digit character. -/
theorem digitChar_toNat (d : Nat) (h : d < 10) : (Char.ofNat (48 + d)).toNat = 48 + d := by
  interval_cases d <;> decide

/-- Digit characters are not whitespace. -/
theorem isDigit_not_ws {c : Char} (h : c.isDigit = true) : c.isWhitespace = false := by
  cases hw : c.isWhitespace
  · rfl
  · exfalso
    have hc : ((c = ' ' ∨ c = '\t') ∨ c = '\x0d') ∨ c = '\n' := by
      simpa [Char.isWhitespace] using hw
    rcases hc with ((h1 | h1) | h1) | h1 <;> (rw [h1] at h; exact absurd h (by decide))

/-- The digit printer never returns an empty list. -/
theorem nat_to_chars_go_ne_nil (fuel : Nat) : ∀ (n : Nat) (acc : List Char),
    nat_to_chars_go fuel n acc ≠ [] := by
  induction fuel with
  | zero => intro n acc; simp [nat_to_chars_go]
  | succ f ih =>
    intro n acc
    simp only [nat_to_chars_go]
    split
    · simp
    · exact ih _ _

/-- The digit printer only appends in front of its accumulator. -/
theorem nat_to_chars_go_acc (fuel : Nat) : ∀ (n : Nat) (acc : List Char),
    nat_to_chars_go fuel n acc = nat_to_chars_go fuel n [] ++ acc := by
  induction fuel with
  | zero => intro n acc; simp [nat_to_chars_go]
  | succ f ih =>
    intro n acc
    simp only [nat_to_chars_go]
    split
    · simp
    · rw [ih (n / 10) (Char.ofNat (48 + n % 10) :: acc),
        ih (n / 10) (Char.ofNat (48 + n % 10) :: [])]
      simp

/-- Any sufficient fuel yields the same digits. -/
theorem nat_to_chars_go_fuel (f1 : Nat) : ∀ (n f2 : Nat), n ≤ f1 → n ≤ f2 →
    nat_to_chars_go f1 n [] = nat_to_chars_go f2 n [] := by
  induction f1 with
  | zero =>
    intro n f2 h1 _
    have hn : n = 0 := by omega
    subst hn
    cases f2 <;> simp [nat_to_chars_go]
  | succ f ih =>
    intro n f2 h1 h2
    cases f2 with
    | zero =>
      have hn : n = 0 := by omega
      subst hn
      simp [nat_to_chars_go]
    | succ f2' =>
      simp only [nat_to_chars_go]
      by_cases hn : n < 10
      · simp [hn]
      · simp only [hn, if_false]
        have hlt := Nat.div_lt_self (show 0 < n by omega) (show 1 < 10 by omega)
        rw [nat_to_chars_go_acc f, nat_to_chars_go_acc f2',
          ih (n / 10) f2' (by omega) (by omega)]

/-- Every printed character is a digit. -/
theorem nat_to_chars_go_digits (fuel : Nat) : ∀ (n : Nat) (acc : List Char),
    (∀ c ∈ acc, c.isDigit = true) → ∀ c ∈ nat_to_chars_go fuel n acc, c.isDigit = true := by
  induction fuel with
  | zero =>
    intro n acc hacc c hc
    simp only [nat_to_chars_go] at hc
    rcases List.mem_cons.mp hc with h | h
    · subst h
      exact digitChar_isDigit _ (Nat.mod_lt _ (by omega))
    · exact hacc c h
  | succ f ih =>
    intro n acc hacc c hc
    simp only [nat_to_chars_go] at hc
    split at hc
    · rename_i hn
      rcases List.mem_cons.mp hc with h | h
      · subst h
        exact digitChar_isDigit _ (by omega)
      · exact hacc c h
    · refine ih _ _ ?_ c hc
      intro x hx
      rcases List.mem_cons.mp hx with h | h
      · subst h
        exact digitChar_isDigit _ (Nat.mod_lt _ (by omega))
      · exact hacc x h

/-- Every character of `natToChars` is a digit. -/
theorem natToChars_digits (n : Nat) : ∀ c ∈ natToChars n, c.isDigit = true :=
  nat_to_chars_go_digits n n [] (by simp)

/-- `digitsVal` over a snoc. -/
theorem digitsVal_append_one (xs : List Char) (c : Char) :
    digitsVal (xs ++ [c]) = 10 * digitsVal xs + (c.toNat - 48) := by
  simp [digitsVal, List.foldl_append]

/-- The printed digits evaluate back to the printed number. -/
theorem nat_to_chars_go_val (fuel : Nat) : ∀ (n : Nat), n ≤ fuel →
    digitsVal (nat_to_chars_go fuel n []) = n := by
  induction fuel with
  | zero =>
    intro n h
    have hn : n = 0 := by omega
    subst hn
    simp [nat_to_chars_go, digitsVal]
  | succ f ih =>
    intro n h
    simp only [nat_to_chars_go]
    by_cases hn : n < 10
    · simp only [hn, if_true]
      have ht := digitChar_toNat n hn
      simp [digitsVal, ht]
    · simp only [hn, if_false]
      have hlt := Nat.div_lt_self (show 0 < n by omega) (show 1 < 10 by omega)
      rw [nat_to_chars_go_acc, digitsVal_append_one, ih (n / 10) (by omega),
        digitChar_toNat (n % 10) (Nat.mod_lt _ (by omega))]
      omega

/-- `natToChars` round-trips through `digitsVal`. -/
theorem digitsVal_natToChars (n : Nat) : digitsVal (natToChars n) = n :=
  nat_to_chars_go_val n n (le_refl n)

/-- Rust's i64 parser inverts the decimal printer on the i64 range. -/
theorem parseI64_natToChars (n : Nat) (h : n < 2 ^ 63) :
    parseI64 (natToChars n) = some (n : Int) := by
  cases hnc : natToChars n with
  | nil => exact absurd hnc (nat_to_chars_go_ne_nil n n [])
  | cons c rest =>
    have hdig := natToChars_digits n
    have hc : c.isDigit = true := by
      rw [hnc] at hdig
      exact hdig c (by simp)
    have hplus : c ≠ '+' := fun he => by
      rw [he] at hc
      exact absurd hc (by decide)
    have hminus : c ≠ '-' := fun he => by
      rw [he] at hc
      exact absurd hc (by decide)
    have hall : (c :: rest).all Char.isDigit = true := by
      rw [← hnc]
      exact List.all_eq_true.mpr (natToChars_digits n)
    have hval : digitsVal (c :: rest) = n := by
      rw [← hnc]
      exact digitsVal_natToChars n
    have h' : n < 9223372036854775808 := by omega
    simp [parseI64, hplus, hminus, digitsToNat?, hall, hval, h']

/-- The printer for a non-negative `i64` value. -/
theorem intToChars_nonneg (t : Int) (h : 0 ≤ t) : intToChars t = natToChars t.toNat := by
  simp [intToChars, show ¬(t < 0) from by omega]

/-- Round trip for the timestamps `append` writes. -/
theorem parseI64_intToChars (t : Int) (h0 : 0 ≤ t) (h : t < 2 ^ 63) :
    parseI64 (intToChars t) = some t := by
  rw [intToChars_nonneg t h0, parseI64_natToChars t.toNat (by omega)]
  congr 1
  omega

/-- A whitespace-free token followed by a space is split off whole. -/
theorem split_ws_loop_token (tok : List Char) : ∀ (acc rest : List Char),
    (∀ c ∈ tok, c.isWhitespace = false) → acc.reverse ++ tok ≠ [] →
    split_ws_loop (tok ++ ' ' :: rest) acc = (acc.reverse ++ tok) :: split_ws_loop rest [] := by
  induction tok with
  | nil =>
    intro acc rest _ hne
    have hacc : acc ≠ [] := by simpa using hne
    have hemp : acc.isEmpty = false := by
      cases acc
      · exact absurd rfl hacc
      · rfl
    simp [split_ws_loop, hemp]
  | cons c cs ih =>
    intro acc rest hws hne
    have hc : c.isWhitespace = false := hws c (by simp)
    simp only [List.cons_append, split_ws_loop, hc, Bool.false_eq_true, if_false]
    show split_ws_loop (cs ++ ' ' :: rest) (c :: acc) =
      (acc.reverse ++ c :: cs) :: split_ws_loop rest []
    rw [ih (c :: acc) rest (fun x hx => hws x (by simp [hx])) (by simp)]
    simp

/-- `split_whitespace` of `tok ++ " " ++ rest` for a clean token. -/
theorem splitWs_token (tok rest : List Char) (hne : tok ≠ [])
    (hws : ∀ c ∈ tok, c.isWhitespace = false) :
    splitWs (tok ++ ' ' :: rest) = tok :: splitWs rest := by
  have h := split_ws_loop_token tok [] rest hws (by simpa using hne)
  simpa [splitWs] using h

/-- A ledger line is its body plus a newline. -/
theorem ledger_line_eq (e : LedgerEntry) :
    ledger_line e.id e.ts e.title = entryBody e ++ ['\n'] := by
  simp [ledger_line, entryBody]

/-- A line body in snoc form (for right-trim reasoning). -/
theorem entryBody_snoc (e : LedgerEntry) :
    entryBody e = (e.id.data ++ ' ' :: intToChars e.ts ++ ' ' :: '"' :: e.title.data) ++ ['"'] := by
  simp [entryBody]

/-- Line bodies are never empty. -/
theorem entryBody_ne_nil (e : LedgerEntry) : entryBody e ≠ [] := by
  rw [entryBody_snoc]
  simp

/-- The components of a well-formed entry. -/
theorem wfEntry_spec (e : LedgerEntry) (h : wfEntry e = true) :
    e.id.data ≠ [] ∧ (∀ c ∈ e.id.data, c.isWhitespace = false) ∧ 0 ≤ e.ts ∧ e.ts < 2 ^ 63 ∧
      (∀ c ∈ e.title.data, c ≠ '\n') := by
  simp only [wfEntry, Bool.and_eq_true] at h
  obtain ⟨⟨⟨⟨h1, h2⟩, h3⟩, h4⟩, h5⟩ := h
  refine ⟨?_, ?_, ?_, ?_, ?_⟩
  · intro hx
    rw [hx] at h1
    simp at h1
  · intro c hc
    have := List.all_eq_true.mp h2 c hc
    simpa using this
  · simpa using h3
  · simpa using h4
  · intro c hc
    have := List.all_eq_true.mp h5 c hc
    simpa using this

/-- A non-whitespace character is not a newline. -/
theorem not_ws_ne_newline {c : Char} (h : c.isWhitespace = false) : c ≠ '\n' := by
  intro he
  rw [he] at h
  exact absurd h (by decide)

/-- Characters of a well-formed line body are newline-free. -/
theorem entryBody_no_newline (e : LedgerEntry) (hwf : wfEntry e = true) :
    ∀ x ∈ entryBody e, x ≠ '\n' := by
  obtain ⟨_, hid, hts0, _, htitle⟩ := wfEntry_spec e hwf
  rw [show entryBody e =
      e.id.data ++ ' ' :: (intToChars e.ts ++ ' ' :: ('"' :: (e.title.data ++ ['"']))) from by
    simp [entryBody]]
  intro x hx
  rcases List.mem_append.mp hx with hx | hx
  · exact not_ws_ne_newline (hid x hx)
  · rcases List.mem_cons.mp hx with hx | hx
    · subst hx
      decide
    · rcases List.mem_append.mp hx with hx | hx
      · rw [intToChars_nonneg e.ts hts0] at hx
        exact not_ws_ne_newline (isDigit_not_ws (natToChars_digits e.ts.toNat x hx))
      · rcases List.mem_cons.mp hx with hx | hx
        · subst hx
          decide
        · rcases List.mem_cons.mp hx with hx | hx
          · subst hx
            decide
          · rcases List.mem_append.mp hx with hx | hx
            · exact htitle x hx
            · simp only [List.mem_singleton] at hx
              subst hx
              decide

/-- Splitting a well-formed line body into whitespace tokens. -/
theorem splitWs_entryBody (e : LedgerEntry) (hwf : wfEntry e = true) :
    splitWs (entryBody e) =
      e.id.data :: intToChars e.ts :: splitWs ('"' :: e.title.data ++ ['"']) := by
  obtain ⟨hidne, hid, hts0, _, _⟩ := wfEntry_spec e hwf
  have h1 : entryBody e =
      e.id.data ++ ' ' :: (intToChars e.ts ++ ' ' :: ('"' :: e.title.data ++ ['"'])) := by
    simp [entryBody]
  rw [h1, splitWs_token _ _ hidne hid]
  congr 1
  have hdg : ∀ c ∈ intToChars e.ts, c.isWhitespace = false := by
    intro c hc
    rw [intToChars_nonneg e.ts hts0] at hc
    exact isDigit_not_ws (natToChars_digits e.ts.toNat c hc)
  have hdne : intToChars e.ts ≠ [] := by
    rw [intToChars_nonneg e.ts hts0]
    exact nat_to_chars_go_ne_nil _ _ _
  exact splitWs_token _ _ hdne hdg

/-- A well-formed line body never panics the loader. -/
theorem lineSafe_entryBody (e : LedgerEntry) (hwf : wfEntry e = true) :
    lineSafe (entryBody e) = true := by
  obtain ⟨_, _, hts0, hts, _⟩ := wfEntry_spec e hwf
  simp [lineSafe, splitWs_entryBody e hwf, parseI64_intToChars e.ts hts0 hts]

/-- The id a well-formed line body contributes is the entry's id. -/
theorem lineId_entryBody (e : LedgerEntry) (hwf : wfEntry e = true) :
    lineId? (entryBody e) = some e.id := by
  obtain ⟨_, _, hts0, hts, _⟩ := wfEntry_spec e hwf
  simp [lineId?, splitWs_entryBody e hwf, parseI64_intToChars e.ts hts0 hts]

/-- The content built by a history of appends, character by character. -/
theorem ledger_append_fold_data (E : List LedgerEntry) : ∀ (c : Option String),
    ((E.foldl (fun c e => some (DownloadedEpisodes.append c e.id e.ts e.title)) c).getD "").data
      = (c.getD "").data ++ (E.map (fun e => ledger_line e.id e.ts e.title)).flatten := by
  induction E with
  | nil => intro c; simp
  | cons e E' ih =>
    intro c
    simp only [List.foldl_cons, List.map_cons, List.flatten_cons]
    rw [ih]
    simp [DownloadedEpisodes.append]

/-- A non-empty history yields a file. -/
theorem ledger_append_fold_some (E : List LedgerEntry) : ∀ (s : String),
    ∃ t, E.foldl (fun c e => some (DownloadedEpisodes.append c e.id e.ts e.title)) (some s)
      = some t := by
  induction E with
  | nil => intro s; exact ⟨s, rfl⟩
  | cons e E' ih =>
    intro s
    simp only [List.foldl_cons]
    exact ih _

/-- The file content of a non-empty append history. -/
theorem ledgerContentOf_some (E : List LedgerEntry) (hne : E ≠ []) :
    ∃ s, ledgerContentOf E = some s ∧
      s.data = (E.map (fun e => ledger_line e.id e.ts e.title)).flatten := by
  obtain ⟨s, hs⟩ : ∃ s, ledgerContentOf E = some s := by
    cases E with
    | nil => exact absurd rfl hne
    | cons e E' =>
      simp only [ledgerContentOf, List.foldl_cons]
      exact ledger_append_fold_some E' _
  refine ⟨s, hs, ?_⟩
  have h := ledger_append_fold_data E none
  rw [show E.foldl (fun c e => some (DownloadedEpisodes.append c e.id e.ts e.title)) none
      = ledgerContentOf E from rfl, hs] at h
  simpa using h

/-- Right-trimming and line-splitting an append history recovers the
line bodies. -/
theorem splitNl_trimR_flatten (E : List LedgerEntry) (hwf : ∀ x ∈ E, wfEntry x = true)
    (hne : E ≠ []) :
    splitNl (trimR ((E.map (fun e => ledger_line e.id e.ts e.title)).flatten)) =
      E.map entryBody := by
  induction E with
  | nil => exact absurd rfl hne
  | cons e E' ih =>
    have hwe : wfEntry e = true := hwf e (by simp)
    have hwr : ∀ x ∈ E', wfEntry x = true := fun x hx => hwf x (by simp [hx])
    cases E' with
    | nil =>
      simp only [List.map_cons, List.map_nil, List.flatten_cons, List.flatten_nil,
        List.append_nil]
      rw [ledger_line_eq, trimR_append_newline, entryBody_snoc,
        trimR_append_singleton _ _ (by decide), ← entryBody_snoc,
        splitNl_no_newline _ (entryBody_no_newline e hwe)]
    | cons e2 E'' =>
      have ihr := ih hwr (by simp)
      have hrne : trimR ((List.map (fun x => ledger_line x.id x.ts x.title) (e2 :: E'')).flatten)
          ≠ [] := by
        intro hx
        rw [hx] at ihr
        have heq : ([] : List Char) :: ([] : List (List Char)) =
            entryBody e2 :: List.map entryBody E'' := by
          simpa [splitNl] using ihr
        injection heq with h1 _
        exact entryBody_ne_nil e2 h1.symm
      rw [show (List.map (fun x => ledger_line x.id x.ts x.title) (e :: e2 :: E'')).flatten
          = ledger_line e.id e.ts e.title ++
            (List.map (fun x => ledger_line x.id x.ts x.title) (e2 :: E'')).flatten from by
        simp]
      rw [trimR_append _ _ hrne, ledger_line_eq]
      rw [show (entryBody e ++ ['\n']) ++
            trimR ((List.map (fun x => ledger_line x.id x.ts x.title) (e2 :: E'')).flatten)
          = entryBody e ++ '\n' ::
            trimR ((List.map (fun x => ledger_line x.id x.ts x.title) (e2 :: E'')).flatten) from by
        simp]
      rw [splitNl_append_cons _ _ (entryBody_no_newline e hwe), ihr]
      simp

/-- An append history has no leading whitespace (ids start lines and
are whitespace-free). -/
theorem trimL_flatten (E : List LedgerEntry) (hwf : ∀ x ∈ E, wfEntry x = true) (hne : E ≠ []) :
    trimL ((E.map (fun x => ledger_line x.id x.ts x.title)).flatten) =
      (E.map (fun x => ledger_line x.id x.ts x.title)).flatten := by
  cases E with
  | nil => exact absurd rfl hne
  | cons e E' =>
    obtain ⟨hidne, hid, _, _, _⟩ := wfEntry_spec e (hwf e (by simp))
    cases hc : e.id.data with
    | nil => exact absurd hc hidne
    | cons c cs =>
      have hcw : c.isWhitespace = false := hid c (by simp [hc])
      simp only [List.map_cons, List.flatten_cons, ledger_line, hc, List.cons_append,
        List.append_assoc]
      exact trimL_cons_of_not_ws _ _ hcw

/-- Trimming and line-splitting an append history yields exactly the
line bodies of its entries. -/
theorem ledger_lines_eq (E : List LedgerEntry) (hwf : ∀ x ∈ E, wfEntry x = true)
    (hne : E ≠ []) :
    splitNl (trimChars ((E.map (fun x => ledger_line x.id x.ts x.title)).flatten)) =
      E.map entryBody := by
  unfold trimChars
  rw [trimL_flatten E hwf hne]
  exact splitNl_trimR_flatten E hwf hne

/-- Folding panic-free lines: the fold succeeds and its keys are the
accumulator's keys plus the ids the lines contribute. -/
theorem load_fold_safe (L : List (List Char)) (acc : Ledger)
    (hsafe : ∀ l ∈ L, lineSafe l = true) :
    ∃ m, load_fold acc L = .ok m ∧
      ∀ id, (containsKey m id = true ↔
        (containsKey acc id = true ∨ id ∈ L.filterMap lineId?)) := by
  induction L generalizing acc with
  | nil => exact ⟨acc, rfl, fun id => by simp⟩
  | cons l rest ih =>
    have hl := hsafe l (by simp)
    have hrest : ∀ x ∈ rest, lineSafe x = true := fun x hx => hsafe x (by simp [hx])
    cases hsw : splitWs l with
    | nil =>
      have hpl : parse_line l = .ok none := by simp [parse_line, hsw]
      obtain ⟨m, hm, hiff⟩ := ih acc hrest
      refine ⟨m, by simp [load_fold, hpl, hm], fun id => ?_⟩
      rw [hiff id]
      simp [lineId?, hsw]
    | cons i tl =>
      cases tl with
      | nil =>
        have hpl : parse_line l = .ok none := by simp [parse_line, hsw]
        obtain ⟨m, hm, hiff⟩ := ih acc hrest
        refine ⟨m, by simp [load_fold, hpl, hm], fun id => ?_⟩
        rw [hiff id]
        simp [lineId?, hsw]
      | cons ts tl2 =>
        have hps : (parseI64 ts).isSome = true := by
          have := hl
          simp only [lineSafe, hsw] at this
          exact this
        obtain ⟨t, ht⟩ := Option.isSome_iff_exists.mp hps
        have hpl : parse_line l = .ok (some (String.mk i, (t.emod (2 ^ 64)).toNat)) := by
          simp [parse_line, hsw, ht]
        obtain ⟨m, hm, hiff⟩ := ih ((String.mk i, (t.emod (2 ^ 64)).toNat) :: acc) hrest
        refine ⟨m, ?_, fun id => ?_⟩
        · simp only [load_fold, hpl]
          simpa using hm
        · rw [hiff id]
          simp only [containsKey, List.any_cons, List.filterMap_cons, lineId?, hsw, ht,
            Option.isSome_some, if_true, List.mem_cons, Bool.or_eq_true, decide_eq_true_eq]
          constructor
          · rintro ((h | h) | h)
            · exact Or.inr (Or.inl h.symm)
            · exact Or.inl h
            · exact Or.inr (Or.inr h)
          · rintro (h | h | h)
            · exact Or.inl (Or.inr h)
            · exact Or.inl (Or.inl h.symm)
            · exact Or.inr h

/-- C6: ledger round trip.  Once an episode's computed id has been
appended (anywhere in an append history, duplicates included), every
subsequent load succeeds with a set containing that id, and
`should_download` returns `false` for the episode from the ledger check
alone — for every mode and before any mode-specific check can run or
panic. -/
theorem c6_ledger_round_trip (E : List LedgerEntry) (e : LedgerEntry) (p : Podcast) (env : Env)
    (ep : Episode) (latest : Nat)
    (hmem : e ∈ E) (hwf : ∀ x ∈ E, wfEntry x = true)
    (hid : get_id p env ep = .ok e.id) :
    ∃ m, DownloadedEpisodes.load (ledgerContentOf E) = .ok m ∧
      containsKey m e.id = true ∧
      should_download p env ep latest m = .ok false := by
  have hne : E ≠ [] := by
    intro h
    rw [h] at hmem
    simp at hmem
  obtain ⟨s, hs, hsdata⟩ := ledgerContentOf_some E hne
  have hlines : splitNl (trimChars s.data) = E.map entryBody := by
    rw [hsdata]
    exact ledger_lines_eq E hwf hne
  have hsafe : ∀ l ∈ E.map entryBody, lineSafe l = true := by
    intro l hl
    obtain ⟨x, hx, rfl⟩ := List.mem_map.mp hl
    exact lineSafe_entryBody x (hwf x hx)
  obtain ⟨m, hm, hiff⟩ := load_fold_safe (E.map entryBody) [] hsafe
  have hload : DownloadedEpisodes.load (ledgerContentOf E) = .ok m := by
    rw [hs]
    simp only [DownloadedEpisodes.load]
    rw [hlines]
    exact hm
  have hasid : containsKey m e.id = true := by
    rw [hiff e.id]
    exact Or.inr (List.mem_filterMap.mpr
      ⟨entryBody e, List.mem_map_of_mem _ hmem, lineId_entryBody e (hwf e hmem)⟩)
  refine ⟨m, hload, hasid, ?_⟩
  simp [should_download, hid, hasid]

/-- C6 witness: a duplicated two-line history for id `e0`; the load
succeeds, contains `e0`, and the Backlog-mode podcast `p5` refuses to
re-queue the episode. -/
theorem c6_ledger_round_trip_witness :
    entry0 ∈ [entry0, entry0] ∧ (∀ x ∈ [entry0, entry0], wfEntry x = true) ∧
      get_id p5 env0 ep0 = .ok entry0.id ∧
      (∃ m, DownloadedEpisodes.load (ledgerContentOf [entry0, entry0]) = .ok m ∧
        containsKey m entry0.id = true ∧
        should_download p5 env0 ep0 1 m = .ok false) :=
  ⟨by decide, by decide, by decide,
    c6_ledger_round_trip [entry0, entry0] entry0 p5 env0 ep0 1 (by decide) (by decide)
      (by decide)⟩

/-- C4 (amended): loading parses all lines into a set keyed by id,
silently ignoring every line with fewer than two whitespace tokens
(such as a partial trailing line holding only an id); the loaded key set
is exactly the ids of the lines whose second token parses as i64.  (A
line with an unparseable second token instead panics — see the
counterexample.) -/
theorem c4_amended (s : String) (id : String)
    (hsafe : ∀ l ∈ splitNl (trimChars s.data), lineSafe l = true) :
    ∃ m, DownloadedEpisodes.load (some s) = .ok m ∧
      (containsKey m id = true ↔ id ∈ lineIds s.data) := by
  obtain ⟨m, hm, hiff⟩ := load_fold_safe (splitNl (trimChars s.data)) [] hsafe
  refine ⟨m, ?_, ?_⟩
  · simpa [DownloadedEpisodes.load] using hm
  · rw [hiff id]
    simp [lineIds, containsKey]

/-- C4 witness: a ledger whose last line is the truncated `only` loads
the ids of its two well-formed lines and skips the partial one. -/
theorem c4_amended_witness :
    (∀ l ∈ splitNl (trimChars ("a 1\nb 2\nonly" : String).data), lineSafe l = true) ∧
      (∃ m, DownloadedEpisodes.load (some "a 1\nb 2\nonly") = .ok m ∧
        (containsKey m "a" = true ↔ "a" ∈ lineIds ("a 1\nb 2\nonly" : String).data)) :=
  ⟨by decide, c4_amended "a 1\nb 2\nonly" "a" (by decide)⟩

/-- `takeWhile` passes over a prefix whose elements all satisfy the
predicate. -/
theorem takeWhile_all_append {p : Char → Bool} (xs ys : List Char)
    (hxs : ∀ x ∈ xs, p x = true) :
    (xs ++ ys).takeWhile p = xs ++ ys.takeWhile p := by
  induction xs with
  | nil => simp
  | cons a as ih =>
    have ha := hxs a (by simp)
    simp only [List.cons_append, List.takeWhile_cons, ha, if_true]
    rw [ih (fun x hx => hxs x (by simp [hx]))]

/-- `splitAtLastChar` misses when the character is absent. -/
theorem splitLast_none {c : Char} {cs : List Char} (h : ∀ x ∈ cs, x ≠ c) :
    splitAtLastChar c cs = none := by
  have ht : cs.reverse.takeWhile (fun x => x ≠ c) = cs.reverse := by
    rw [List.takeWhile_eq_self_iff]
    intro a ha
    simp [h a (List.mem_reverse.mp ha)]
  simp only [splitAtLastChar]
  rw [ht]
  simp

/-- `splitAtLastChar` splits at the last occurrence. -/
theorem splitLast_append (d r : List Char) {c : Char} (h : ∀ x ∈ r, x ≠ c) :
    splitAtLastChar c (d ++ c :: r) = some (d, r) := by
  have hrev : (d ++ c :: r).reverse = r.reverse ++ c :: d.reverse := by
    simp
  have htake : ((d ++ c :: r).reverse).takeWhile (fun x => x ≠ c) = r.reverse := by
    rw [hrev, takeWhile_all_append]
    · simp [List.takeWhile_cons]
    · intro x hx
      simp [h x (List.mem_reverse.mp hx)]
  have hlen : r.reverse.length ≠ (d ++ c :: r).length := by
    simp
    omega
  have htakelen : (d ++ c :: r).length - r.reverse.length - 1 = d.length := by
    simp
    omega
  simp only [splitAtLastChar, htake, hlen, if_false, htakelen, List.reverse_reverse]
  rw [show d ++ c :: r = (d ++ [c]) ++ r by simp, List.take_append_of_le_length (by simp)]
  simp [List.take_left]

/-- `set_extension` after `with_file_name` only touches the new final
component (when that component is slash-free). -/
theorem pathSetExtension_withFileName (f r ext : List Char) (hr : ∀ x ∈ r, x ≠ '/') :
    pathSetExtension (pathWithFileName f r) ext = pathWithFileName f (setExtChars r ext) := by
  cases hsplit : splitAtLastChar '/' f with
  | none =>
    simp only [pathWithFileName, hsplit, pathSetExtension, pathFileName, splitLast_none hr]
  | some pr =>
    obtain ⟨d, old⟩ := pr
    simp only [pathWithFileName, hsplit, pathSetExtension, pathFileName,
      splitLast_append d r hr]

/-- A dot-free name gains exactly `.ext`. -/
theorem setExtChars_dot_free (r ext : List Char) (h : ∀ x ∈ r, x ≠ '.') :
    setExtChars r ext = r ++ '.' :: ext := by
  simp [setExtChars, splitLast_none h]

/-- C8 (amended): the post-processing rename applies `set_extension` to
the evaluated filename pattern: a dot-free result becomes
`result.ext` as the claim expects, but for a result containing a dot the
portion after its last dot is REPLACED by the preserved extension. -/
theorem c8_amended (p : Podcast) (env : Env) (file : String) (tags : Option Id3Tags)
    (ep : Episode) (result : String) (ext : List Char)
    (hres : evaluate_pattern p env p.config.name_pattern tags (some ep) = .ok result)
    (hext : pathExtension file.data = some ext)
    (hslash : ∀ x ∈ result.data, x ≠ '/') :
    (rename_file p env file tags ep).2 =
      .ok (String.mk (pathWithFileName file.data (setExtChars result.data ext))) ∧
    ((∀ x ∈ result.data, x ≠ '.') → setExtChars result.data ext = result.data ++ '.' :: ext) := by
  constructor
  · simp only [rename_file, hres, hext]
    rw [pathSetExtension_withFileName file.data result.data ext hslash]
  · intro hdot
    exact setExtChars_dot_free result.data ext hdot

/-- C8 witness: with the dot-free evaluated name `epname` and inferred
extension `mp3`, the final file is `casts/epname.mp3`. -/
theorem c8_amended_witness :
    evaluate_pattern p8b env0 p8b.config.name_pattern none (some ep0) = .ok "epname" ∧
      pathExtension ("casts/g.mp3" : String).data = some "mp3".data ∧
      (∀ x ∈ ("epname" : String).data, x ≠ '/') ∧
      (∀ x ∈ ("epname" : String).data, x ≠ '.') ∧
      (rename_file p8b env0 "casts/g.mp3" none ep0).2 =
        .ok (String.mk (pathWithFileName ("casts/g.mp3" : String).data
          (setExtChars ("epname" : String).data "mp3".data))) ∧
      setExtChars ("epname" : String).data "mp3".data =
        ("epname" : String).data ++ '.' :: "mp3".data :=
  ⟨by decide, by decide, by decide, by decide,
   (c8_amended p8b env0 "casts/g.mp3" none ep0 "epname" "mp3".data (by decide) (by decide)
      (by decide)).1,
   (c8_amended p8b env0 "casts/g.mp3" none ep0 "epname" "mp3".data (by decide) (by decide)
      (by decide)).2 (by decide)⟩

/-- C5 (amended): Backlog eligibility uses Rust i64 division, which
truncates toward zero; whenever `now ≥ start` (and the interval is
positive) this coincides with the claimed floor formula, and the claimed
example holds: with a 7-day interval, episode 3 is ineligible at exactly
`start + 20 days` and eligible at `start + 21 days` and ever after.  For
`now < start` truncation and floor differ (see the counterexample). -/
theorem c5_amended :
    (∀ (p : Podcast) (env : Env) (ep : Episode) (latest : Nat) (dl : Ledger) (id : String)
        (start : Nat) (interval : Int),
      p.config.mode = .backlog start interval → get_id p env ep = .ok id →
      containsKey dl id = false → 0 < interval → (start : Int) ≤ env.now →
      (should_download p env ep latest dl = .ok true ↔
        specBacklogEligible env.now start interval ep.index = true)) ∧
    (∀ (p : Podcast) (env : Env) (ep : Episode) (latest : Nat) (dl : Ledger) (id : String)
        (start : Nat),
      p.config.mode = .backlog start 7 → get_id p env ep = .ok id →
      containsKey dl id = false → ep.index = 3 →
      env.now = (start : Int) + 20 * 86400 →
      should_download p env ep latest dl = .ok false) ∧
    (∀ (p : Podcast) (env : Env) (ep : Episode) (latest : Nat) (dl : Ledger) (id : String)
        (start : Nat),
      p.config.mode = .backlog start 7 → get_id p env ep = .ok id →
      containsKey dl id = false → ep.index = 3 →
      (start : Int) + 21 * 86400 ≤ env.now →
      should_download p env ep latest dl = .ok true) := by
  refine ⟨?_, ?_, ?_⟩
  · intro p env ep latest dl id start interval hmode hid hdl hpos hstart
    have hne : interval ≠ 0 := by omega
    have h0 : 0 ≤ env.now - (start : Int) := by omega
    have h1 : 0 ≤ (env.now - (start : Int)) / 86400 := Int.ediv_nonneg h0 (by norm_num)
    have e1 : Int.tdiv (env.now - (start : Int)) 86400 = (env.now - (start : Int)) / 86400 :=
      Int.tdiv_eq_ediv h0 (by norm_num)
    have e2 : Int.tdiv ((env.now - (start : Int)) / 86400) interval =
        ((env.now - (start : Int)) / 86400) / interval :=
      Int.tdiv_eq_ediv h1 (le_of_lt hpos)
    have e3 : Int.fdiv (env.now - (start : Int)) 86400 = (env.now - (start : Int)) / 86400 :=
      Int.fdiv_eq_ediv _ (by norm_num)
    have e4 : Int.fdiv ((env.now - (start : Int)) / 86400) interval =
        ((env.now - (start : Int)) / 86400) / interval :=
      Int.fdiv_eq_ediv _ (le_of_lt hpos)
    simp [should_download, hid, hdl, hmode, hne, specBacklogEligible, e1, e2, e3, e4]
  · intro p env ep latest dl id start hmode hid hdl hidx hnow
    have e : env.now - (start : Int) = 1728000 := by omega
    simp only [should_download, hid, hdl, hmode, hidx, e]
    decide
  · intro p env ep latest dl id start hmode hid hdl hidx hnow
    have h0 : 0 ≤ env.now - (start : Int) := by omega
    have h1 : 0 ≤ (env.now - (start : Int)) / 86400 := Int.ediv_nonneg h0 (by norm_num)
    have hdays : (21 : Int) ≤ (env.now - (start : Int)) / 86400 := by
      rw [Int.le_ediv_iff_mul_le (by norm_num : (0 : Int) < 86400)]
      omega
    have hidxle : (3 : Int) ≤ ((env.now - (start : Int)) / 86400) / 7 := by
      rw [Int.le_ediv_iff_mul_le (by norm_num : (0 : Int) < 7)]
      omega
    have e1 : Int.tdiv (env.now - (start : Int)) 86400 = (env.now - (start : Int)) / 86400 :=
      Int.tdiv_eq_ediv h0 (by norm_num)
    have e2 : Int.tdiv ((env.now - (start : Int)) / 86400) 7 =
        ((env.now - (start : Int)) / 86400) / 7 :=
      Int.tdiv_eq_ediv h1 (by norm_num)
    simp [should_download, hid, hdl, hmode, hidx, e1, e2, hidxle]

/-- C5 witness: the amended behaviour at concrete times — episode 3 of
the backlog podcast `p5` (start one day after epoch, 7-day interval) is
refused at `start + 20 days`, accepted at `start + 22 days`, and the
truncating and floor formulas agree there. -/
theorem c5_amended_witness :
    (p5.config.mode = DownloadMode.backlog 86400 7 ∧ get_id p5 envT20 ep3 = .ok "e3" ∧
      containsKey [] "e3" = false ∧ ep3.index = 3 ∧
      envT20.now = ((86400 : Nat) : Int) + 20 * 86400 ∧
      should_download p5 envT20 ep3 4 [] = .ok false) ∧
    (((86400 : Nat) : Int) + 21 * 86400 ≤ envT22.now ∧
      should_download p5 envT22 ep3 4 [] = .ok true) ∧
    (0 < (7 : Int) ∧ ((86400 : Nat) : Int) ≤ envT22.now ∧
      (should_download p5 envT22 ep3 4 [] = .ok true ↔
        specBacklogEligible envT22.now 86400 7 ep3.index = true)) :=
  ⟨⟨by decide, by decide, by decide, by decide, by decide,
      c5_amended.2.1 p5 envT20 ep3 4 [] "e3" 86400 (by decide) (by decide) (by decide)
        (by decide) (by decide)⟩,
   ⟨by decide,
      c5_amended.2.2 p5 envT22 ep3 4 [] "e3" 86400 (by decide) (by decide) (by decide)
        (by decide) (by decide)⟩,
   ⟨by decide, by decide,
      c5_amended.1 p5 envT22 ep3 4 [] "e3" 86400 7 (by decide) (by decide) (by decide)
        (by decide) (by decide)⟩⟩

/-- C2 (amended): a recognized token whose required episode or tag
context is absent falls through every guarded match arm and is treated
like an unrecognized token — a diagnostic plus `process::exit(1)` — for
each of `pubdate::*`, `id3::*`, `rss::episode::*`, `guid` and `url`; the
placeholder `<value not found>` appears only when the context is present
but the looked-up value is missing. -/
theorem c2_amended :
    (∀ (p : Podcast) (env : Env) (tags : Option Id3Tags),
      evaluate_pattern p env "{pubdate::unix}" tags none =
        .error (.exit 1 "invalid tag configured: pubdate::unix")) ∧
    (∀ (p : Podcast) (env : Env) (ep : Episode),
      evaluate_pattern p env "{id3::TIT2}" none (some ep) =
        .error (.exit 1 "invalid tag configured: id3::TIT2")) ∧
    (∀ (p : Podcast) (env : Env) (tags : Option Id3Tags),
      evaluate_pattern p env "{rss::episode::title}" tags none =
        .error (.exit 1 "invalid tag configured: rss::episode::title")) ∧
    (∀ (p : Podcast) (env : Env) (tags : Option Id3Tags),
      evaluate_pattern p env "{guid}" tags none =
        .error (.exit 1 "invalid tag configured: guid")) ∧
    (∀ (p : Podcast) (env : Env) (tags : Option Id3Tags),
      evaluate_pattern p env "{url}" tags none =
        .error (.exit 1 "invalid tag configured: url")) ∧
    (∀ (p : Podcast) (env : Env) (ep : Episode) (tags : Id3Tags),
      lookupText tags "TIT2" = none →
      evaluate_pattern p env "{id3::TIT2}" (some tags) (some ep) = .ok nullStr) ∧
    (∀ (p : Podcast) (env : Env) (ep : Episode),
      lookupText ep.fields "title" = none →
      evaluate_pattern p env "{rss::episode::title}" none (some ep) = .ok nullStr) := by
  refine ⟨?_, ?_, ?_, ?_, ?_, ?_, ?_⟩
  · intro p env tags
    cases tags <;> rfl
  · intro p env ep
    rfl
  · intro p env tags
    cases tags <;> rfl
  · intro p env tags
    cases tags <;> rfl
  · intro p env tags
    cases tags <;> rfl
  · intro p env ep tags h
    have e1 : evaluate_pattern p env "{id3::TIT2}" (some tags) (some ep) =
        .ok (String.mk (((lookupText tags "TIT2").getD nullStr).data ++ [])) := rfl
    rw [e1, h]
    rfl
  · intro p env ep h
    have e1 : evaluate_pattern p env "{rss::episode::title}" none (some ep) =
        .ok (String.mk (((lookupText ep.fields "title").getD nullStr).data ++ [])) := rfl
    rw [e1, h]
    rfl

/-- C2 witness: the amended behaviour at concrete inputs — empty tag
set and fieldless episode resolve to the placeholder, absent context
halts. -/
theorem c2_amended_witness :
    lookupText [] "TIT2" = none ∧
      evaluate_pattern p5 env0 "{id3::TIT2}" (some []) (some ep0) = .ok nullStr ∧
      lookupText ep0.fields "title" = none ∧
      evaluate_pattern p5 env0 "{rss::episode::title}" none (some ep0) = .ok nullStr ∧
      evaluate_pattern p5 env0 "{url}" none none =
        .error (.exit 1 "invalid tag configured: url") :=
  ⟨by decide, c2_amended.2.2.2.2.2.1 p5 env0 ep0 [] (by decide), by decide,
   c2_amended.2.2.2.2.2.2 p5 env0 ep0 (by decide),
   c2_amended.2.2.2.2.1 p5 env0 none⟩

/-- C1 witness: the amended bound at the 21-episode feed — index 15
excluded, index 16 included. -/
theorem c1_amended_witness :
    ep15 ∈ episodes p1 ∧ ep16 ∈ episodes p1 ∧ (episodes p1).length = 21 ∧
      should_download p1 env0 ep15 (episodes p1).length [] =
        .ok (amendedPassesMaxEpisodesBound (some 5) (episodes p1).length ep15.index) ∧
      amendedPassesMaxEpisodesBound (some 5) (episodes p1).length ep15.index = false ∧
      should_download p1 env0 ep16 (episodes p1).length [] =
        .ok (amendedPassesMaxEpisodesBound (some 5) (episodes p1).length ep16.index) ∧
      amendedPassesMaxEpisodesBound (some 5) (episodes p1).length ep16.index = true :=
  ⟨by decide, by decide, by decide,
    c1_amended p1 env0 ep15 [] "g15" none (some 5) none (by decide) (by decide) (by decide)
      (by decide) (by decide) (fun m h => by cases h; decide),
    by decide,
    c1_amended p1 env0 ep16 [] "g16" none (some 5) none (by decide) (by decide) (by decide)
      (by decide) (by decide) (fun m h => by cases h; decide),
    by decide⟩

end CringeCast
